import Mathlib

/-!
Verification development for the `add-in` project-scaffolding CLI
(`src/lib/index.js`).  The JavaScript source is shallowly embedded:
strings are modelled as `List Char` (ASCII fragment of JS's UTF-16
strings), the filesystem and project-tree searches are explicit oracles
or association lists, and fallible code returns `Except`.
-/

set_option maxRecDepth 10000

/-- Strings of the embedded program are lists of characters. -/
abbrev Str := List Char

/-- Whitespace characters recognised by the model of JS `String.prototype.trim`
(ASCII fragment). -/
def isWsChar (c : Char) : Bool :=
  c == ' ' || c == '\t' || c == '\n' || c == '\r'

/-- Model of JS `trim` applied from the left. -/
def trimLeft (s : Str) : Str := s.dropWhile isWsChar

/-- Model of JS `String.prototype.trim`: drop whitespace on both ends. -/
def trimStr (s : Str) : Str :=
  ((s.dropWhile isWsChar).reverse.dropWhile isWsChar).reverse

/-- Model of JS `String.prototype.split` on a character predicate, keeping
empty fragments, exactly as JS `split` does. -/
def splitOnPred (p : Char → Bool) : Str → List Str
  | [] => [[]]
  | c :: t =>
    let r := splitOnPred p t
    if p c then [] :: r
    else
      match r with
      | [] => [[c]]
      | w :: ws => (c :: w) :: ws

/-- Model of JS `String.prototype.split` on a single separator character. -/
def splitOnChar (sep : Char) (s : Str) : List Str :=
  splitOnPred (fun c => c == sep) s

/-- Whether `s` starts with `p` (model of JS `String.prototype.startsWith`). -/
def startsWithStr (s p : Str) : Bool := p.isPrefixOf s

/-- Whether `s` ends with `p` (model of JS `String.prototype.endsWith`). -/
def endsWithStr (s p : Str) : Bool := p.reverse.isPrefixOf s.reverse

/-- Drop the last `n` characters (model of `slice(0, -n)` / `substring`). -/
def dropLastN (s : Str) (n : Nat) : Str := s.take (s.length - n)

/-- Whether the pattern `pat` occurs as a contiguous substring of `s`
(model of JS `String.prototype.includes`). -/
def containsSub (s pat : Str) : Bool :=
  match s with
  | [] => pat.isEmpty
  | _ :: t => pat.isPrefixOf s || containsSub t pat

/-- Fuelled worker for `replaceAllStr`; the fuel bounds the number of scanning
steps so the definition is structural and kernel-evaluable. -/
def replaceAllFuel (fuel : Nat) (pat rep : Str) : Str → Str
  | [] => []
  | c :: t =>
    match fuel with
    | 0 => c :: t
    | fuel + 1 =>
      if !pat.isEmpty && pat.isPrefixOf (c :: t) then
        rep ++ replaceAllFuel fuel pat rep ((c :: t).drop pat.length)
      else
        c :: replaceAllFuel fuel pat rep t

/-- Model of JS `String.prototype.replace` with a global literal pattern:
scan left to right, replace non-overlapping occurrences of `pat` by `rep`,
never rescanning the replacement text.  Each scanning step consumes at
least one character, so `s.length` steps of fuel always suffice. -/
def replaceAllStr (pat rep s : Str) : Str := replaceAllFuel s.length pat rep s

/-- Model of JS `String.prototype.replace` with a plain-string (first
occurrence only) pattern. -/
def replaceFirstStr (pat rep : Str) : Str → Str
  | [] => if pat.isEmpty then rep else []
  | c :: t =>
    if !pat.isEmpty && pat.isPrefixOf (c :: t) then rep ++ (c :: t).drop pat.length
    else c :: replaceFirstStr pat rep t

/-- Concatenate a list of strings (model of JS `Array.prototype.join` with
the empty separator). -/
def joinStr (l : List Str) : Str := l.foldr (· ++ ·) []

/-- Lowercase ASCII letter test; models the JS idiom
`ch !== ch.toUpperCase()` used by the source on ASCII input. -/
def isLowerAscii (c : Char) : Bool := 97 ≤ c.toNat && c.toNat ≤ 122

/-- Uppercase ASCII letter test; models the JS idiom
`ch === ch.toUpperCase() && ch !== ch.toLowerCase()` on ASCII input. -/
def isUpperAscii (c : Char) : Bool := 65 ≤ c.toNat && c.toNat ≤ 90

/-- ASCII model of JS `String.prototype.toUpperCase` on one character. -/
def toUpperChar (c : Char) : Char :=
  if isLowerAscii c then Char.ofNat (c.toNat - 32) else c

/-- ASCII model of JS `String.prototype.toLowerCase` on one character. -/
def toLowerChar (c : Char) : Char :=
  if isUpperAscii c then Char.ofNat (c.toNat + 32) else c

/-- Lowercase a whole string. -/
def toLowerStr (s : Str) : Str := s.map toLowerChar

/-! Session configuration (the relevant part of the tool's global mutable
state: `process.platform`, `replaceTokens`, `preserve`). -/

/-- Session configuration relevant to the embedded core. -/
structure Config where
  isWin : Bool := false
  replaceTokens : List (Str × Str) := []
  preserve : Bool := false

/-- The default session configuration (POSIX platform, no custom tokens). -/
def cfg0 : Config := {}

/-! Embedding of `camelToKebab`, `splitPascalCase`, `sanitizeProjectName`,
`replaceMyApp` and `osPaths` from `src/lib/index.js`. -/

/-- Worker for `camelToKebab`: insert a hyphen at each lowercase-to-uppercase
boundary, exactly as the global regex `([a-z])([A-Z])` with `$1-$2` does. -/
def kebabIns : Str → Str
  | [] => []
  | [c] => [c]
  | a :: b :: rest =>
    if isLowerAscii a && isUpperAscii b then a :: '-' :: kebabIns (b :: rest)
    else a :: kebabIns (b :: rest)

/-- Embedding of `camelToKebab` (line 101): hyphenate camel-case boundaries,
then lowercase everything. -/
def camelToKebab (s : Str) : Str := toLowerStr (kebabIns s)

/-- Worker for `splitPascalCase`: walk the string carrying the index `i` and
the previous character, inserting a space before an uppercase letter when
`(i > 1 && prev is lowercase) || (next is lowercase)`, the exact condition of
the source loop (lines 108-122). -/
def spcAux (i : Nat) (prev : Option Char) : Str → Str
  | [] => []
  | c :: rest =>
    let prevLower := match prev with
      | some p => isLowerAscii p
      | none => false
    let nextLower := match rest.head? with
      | some n => isLowerAscii n
      | none => false
    let ins := isUpperAscii c && ((decide (i > 1) && prevLower) || nextLower)
    (if ins then [' ', c] else [c]) ++ spcAux (i + 1) (some c) rest

/-- Embedding of `splitPascalCase` (lines 108-122). -/
def splitPascalCase (input : Str) : Str :=
  if input = [] then input else trimStr (spcAux 0 none input)

/-- The separator characters of `sanitizeProjectName` (line 129). -/
def sepChars : List Char := [' ', '-', '+', '_']

/-- Separator-character test for `sanitizeProjectName`. -/
def isSep (c : Char) : Bool := sepChars.any (fun d => c == d)

/-- Title-case one fragment: uppercase the first character, keep the rest
(model of `w.charAt(0).toUpperCase() + w.slice(1)`). -/
def titleCaseWord : Str → Str
  | [] => []
  | c :: t => toUpperChar c :: t

/-- Embedding of `sanitizeProjectName` (lines 127-137): `null` for an empty
name; a name with no separator is returned unchanged; otherwise split on the
separators, drop empty fragments, title-case each fragment and concatenate. -/
def sanitizeProjectName (name : Str) : Option Str :=
  if name = [] then none
  else if !(name.any isSep) then some name
  else some (joinStr (((splitOnPred isSep name).filter (· ≠ [])).map titleCaseWord))

/-- The six placeholder spellings replaced by `replaceMyApp`
(lines 150-155), in replacement order. -/
def phMyUnderApp : Str := (r"My_App").data
def phMyApp : Str := (r"MyApp").data
def phMySpaceApp : Str := (r"My App").data
def phKebab : Str := (r"my-app").data
def phLower : Str := (r"myapp").data
def phSnake : Str := (r"my_app").data

/-- The placeholder family as a list, in the order the source replaces it. -/
def placeholderFamily : List Str :=
  [phMyUnderApp, phMyApp, phMySpaceApp, phKebab, phLower, phSnake]

/-- Whether a string contains any of the six placeholder spellings. -/
def containsAnyPlaceholder (s : Str) : Bool :=
  placeholderFamily.any (fun p => containsSub s p)

/-- The condensed project name: `projName.replace(/_/g, '')` (line 145). -/
def condenseName (p : Str) : Str := p.filter (fun c => c ≠ '_')

/-- The placeholder-family part of `replaceMyApp` (lines 145-155): the six
fixed replacements, in source order, with the case-transformed forms of the
project name. -/
def placeholderSubst (input projName : Str) : Str :=
  let condensed := condenseName projName
  let kebab := camelToKebab condensed
  let split := splitPascalCase condensed
  replaceAllStr phSnake (toLowerStr projName)
    (replaceAllStr phLower (toLowerStr condensed)
      (replaceAllStr phKebab kebab
        (replaceAllStr phMySpaceApp split
          (replaceAllStr phMyApp condensed
            (replaceAllStr phMyUnderApp projName input)))))

/-- One custom replacement pair: `result.split(term).join(replacement)`
(line 164).  For a non-empty `term` the split/join round trip is literal
non-overlapping substring replacement; for the empty `term`, JS splits
between every character, so the replacement is interspersed. -/
def splitJoin (term rep s : Str) : Str :=
  if term = [] then
    match s with
    | [] => []
    | [c] => [c]
    | c :: t => c :: rep ++ splitJoin term rep t
  else replaceAllStr term rep s

/-- Embedding of `replaceMyApp` (lines 142-168): the six placeholder
replacements, then carriage-return stripping on non-Windows platforms, then
the user-supplied token pairs in order.  A `null`/empty input or project
name returns the input unchanged. -/
def replaceMyApp (cfg : Config) (input : Str) (projName : Option Str) : Str :=
  match projName with
  | none => input
  | some p =>
    if input = [] ∨ p = [] then input
    else
      let r1 := placeholderSubst input p
      let r2 := if cfg.isWin then r1 else r1.filter (fun c => c ≠ '\r')
      cfg.replaceTokens.foldl (fun acc tr => splitJoin tr.1 tr.2 acc) r2

/-- Embedding of `osPaths` (lines 173-178): on Windows turn `/` into `\`,
elsewhere turn `\` into `/`. -/
def osPaths (cfg : Config) (p : Str) : Str :=
  if cfg.isWin then p.map (fun c => if c == '/' then '\\' else c)
  else p.map (fun c => if c == '\\' then '/' else c)

/-! Embedding of the registry parser `parseGistLink` / `parseGistLinks`
(lines 183-272 of `src/lib/index.js`). -/

/-- The backtick character (written by code point to honour file hygiene). -/
def backtickCh : Char := Char.ofNat 96

/-- The single-quote character (written by code point). -/
def squoteCh : Char := Char.ofNat 39

/-- Literal fragments used by the parser. -/
def dashBracketL : Str := (r"- [").data
def httpsPfxL : Str := (r"https://").data
def gistPfxL : Str := (r"https://gist.github.com").data
def ghPfxL : Str := (r"https://github.com/").data
def gistlynL : Str := (r"gistlyn").data
def mythzL : Str := (r"mythz").data
def serviceStackL : Str := (r"ServiceStack").data
def toKeyL : Str := (r"to").data

/-- Word-character test for the modifier-key regex class `\w`. -/
def isWordChar (c : Char) : Bool :=
  (48 ≤ c.toNat && c.toNat ≤ 57) || (65 ≤ c.toNat && c.toNat ≤ 90) ||
  (97 ≤ c.toNat && c.toNat ≤ 122) || c == '_'

/-- Character class `[^\s,}]` of the bare modifier value alternative. -/
def isBareValChar (c : Char) : Bool := !isWsChar c && c != ',' && c != '}'

/-- Try the quoted-value alternative `q([^q]+)q` at the start of `s`:
returns the value and the number of characters consumed. -/
def tryQuotedVal (q : Char) (s : Str) : Option (Str × Nat) :=
  match s with
  | c :: r =>
    if c == q then
      match List.findIdx? (fun d => d == q) r with
      | some j => if j ≥ 1 then some (r.take j, j + 2) else none
      | none => none
    else none
  | [] => none

/-- Try one modifier-pair match `(\w+):(?:"([^"]+)"|'([^']+)'|([^\s,}]+))`
at the start of `s`; returns the pair and the length of the whole match.
When a quoted alternative fails the regex engine backtracks to the bare
alternative, which can then consume the quote character itself. -/
def tryModMatch (s : Str) : Option ((Str × Str) × Nat) :=
  let key := s.takeWhile isWordChar
  if key = [] then none
  else
    match s.drop key.length with
    | ':' :: rest2 =>
      match tryQuotedVal '"' rest2 with
      | some (v, n) => some ((key, v), key.length + 1 + n)
      | none =>
        match tryQuotedVal squoteCh rest2 with
        | some (v, n) => some ((key, v), key.length + 1 + n)
        | none =>
          let v := rest2.takeWhile isBareValChar
          if v = [] then none
          else some ((key, v), key.length + 1 + v.length)
    | _ => none

/-- Fuelled scan of `matchAll` over the modifier block: at each position try
a pair match; on success continue after the match, otherwise advance one
character.  Every step consumes at least one character, so length-many fuel
steps suffice. -/
def scanModsFuel : Nat → Str → List (Str × Str)
  | 0, _ => []
  | _, [] => []
  | fuel + 1, s@(_ :: t) =>
    match tryModMatch s with
    | some (kv, len) => kv :: scanModsFuel fuel (s.drop len)
    | none => scanModsFuel fuel t

/-- All modifier pairs of a modifier block, in match order. -/
def scanMods (s : Str) : List (Str × Str) := scanModsFuel s.length s

/-- JS object property assignment on an association list: update the value
in place when the key exists, append otherwise. -/
def modSet (l : List (Str × Str)) (k v : Str) : List (Str × Str) :=
  match l with
  | [] => [(k, v)]
  | (k', v') :: t => if k' = k then (k, v) :: t else (k', v') :: modSet t k v

/-- The `modifiers` object built from the matched pairs (later matches of
the same key overwrite earlier ones, as JS assignment does). -/
def modifiersOf (modStr : Str) : List (Str × Str) :=
  (scanMods modStr).foldl (fun acc kv => modSet acc kv.1 kv.2) []

/-- Lookup in the modifiers object. -/
def modGet (l : List (Str × Str)) (k : Str) : Option Str :=
  (l.find? (fun kv => kv.1 == k)).map (fun kv => kv.2)

/-- Try the link pattern `- \[([^\]]+)\]\(([^)]+)\)` at the start of `s`;
returns name, url and the length of the whole match. -/
def tryLinkMatchAt (s : Str) : Option (Str × Str × Nat) :=
  if startsWithStr s dashBracketL then
    let r1 := s.drop 3
    let name := r1.takeWhile (fun c => c ≠ ']')
    if name = [] then none
    else
      match r1.drop name.length with
      | ']' :: '(' :: r2 =>
        let url := r2.takeWhile (fun c => c ≠ ')')
        if url = [] then none
        else
          match r2.drop url.length with
          | ')' :: _ => some (name, url, 3 + name.length + 2 + url.length + 1)
          | _ => none
      | _ => none
  else none

/-- Leftmost match of the link pattern anywhere in `s`, as JS
`String.prototype.match` finds it. -/
def findLinkMatch : Str → Option (Str × Str × Nat)
  | [] => none
  | s@(_ :: t) =>
    match tryLinkMatchAt s with
    | some m => some m
    | none => findLinkMatch t

/-- The record produced for one registry line (lines 247-257).  `user` is
`Option Str` because the JS variable can hold `undefined`. -/
structure LinkRecord where
  name : Str
  url : Str
  user : Option Str
  toHint : Option Str
  description : Str
  tags : Option (List Str)
  gistId : Option Str
  repo : Option Str
  modifiers : List (Str × Str)
deriving DecidableEq

/-- The optional brace-delimited modifier block (lines 196-208): when the
remaining text starts with a brace and a closing brace exists at a
positive index, parse the pairs inside and consume the block. -/
def parseModsBlock (rem0 : Str) : List (Str × Str) × Str :=
  if startsWithStr rem0 ['{'] then
    match List.findIdx? (fun c => c == '}') rem0 with
    | some endBrace =>
      if endBrace > 0 then
        (modifiersOf ((rem0.drop 1).take (endBrace - 1)),
         trimStr (rem0.drop (endBrace + 1)))
      else ([], rem0)
    | none => ([], rem0)
  else ([], rem0)

/-- The optional backtick-delimited tag block (lines 210-219): when the
remaining text starts with a backtick and a further backtick follows, the
tags are the trimmed, non-empty comma-separated entries between them. -/
def parseTagsBlock (rem1 : Str) : Option (List Str) × Str :=
  match rem1 with
  | c :: r =>
    if c == backtickCh then
      match List.findIdx? (fun d => d == backtickCh) r with
      | some j =>
        (some (((splitOnChar ',' (r.take j)).map trimStr).filter (· ≠ [])),
         trimStr (r.drop (j + 1)))
      | none => (none, rem1)
    else (none, rem1)
  | [] => (none, rem1)

/-- Author extraction from the URL (lines 225-227): the second slash
segment after the scheme for `https://` URLs, the empty string otherwise
(`none` models the JS `undefined` of a missing segment). -/
def extractUser0 (url : Str) : Option Str :=
  if startsWithStr url httpsPfxL then (splitOnChar '/' (url.drop 8)).get? 1
  else some []

/-- Author normalization (lines 230-232): the two legacy handles collapse
to the canonical organization name. -/
def normalizeUser : Option Str → Option Str
  | some u => if u = gistlynL ∨ u = mythzL then some serviceStackL else some u
  | none => none

/-- Build the record from the matched name, url, and the trimmed text that
follows the match (lines 193-257): optional brace-modifier block, optional
backtick tag block, description, author extraction and normalization, and
the gist-id / repository split. -/
def buildRecord (name url rem0 : Str) : LinkRecord :=
  let modsRem := parseModsBlock rem0
  let modifiers := modsRem.1
  let rem1 := modsRem.2
  let tagsRem := parseTagsBlock rem1
  let tags := tagsRem.1
  let description := tagsRem.2
  let user1 := normalizeUser (extractUser0 url)
  if startsWithStr url gistPfxL then
    { name, url, user := user1, toHint := modGet modifiers toKeyL, description,
      tags, gistId := some ((splitOnChar '/' url).getLastD []), repo := none,
      modifiers }
  else if startsWithStr url ghPfxL then
    let parts := splitOnChar '/' (url.drop 19)
    { name, url, user := some (parts.headD []), toHint := modGet modifiers toKeyL,
      description, tags, gistId := none, repo := parts.get? 1, modifiers }
  else
    { name, url, user := user1, toHint := modGet modifiers toKeyL, description,
      tags, gistId := none, repo := none, modifiers }

/-- Embedding of `parseGistLink` (lines 183-258). -/
def parseGistLink (line : Str) : Option LinkRecord :=
  let trimmed := trimStr line
  if startsWithStr trimmed dashBracketL then
    match findLinkMatch trimmed with
    | some m => some (buildRecord m.1 m.2.1 (trimStr (trimmed.drop m.2.2)))
    | none => none
  else none

/-- Embedding of `parseGistLinks` (lines 263-272). -/
def parseGistLinks (md : Str) : List LinkRecord :=
  (splitOnChar '\n' md).filterMap parseGistLink

/-! Embedding of the destination resolver `resolveBasePath` (lines 396-451)
and of the path-resolution phase of `writeGistFile` (lines 666-700).
Filesystem queries (`findFiles`, `findDirectories`, `existsSync`) and the
process environment are explicit oracles in `Env`. -/

/-- The process environment and filesystem oracles used during resolution.
`findFilesR pat` stands for `findFiles(process.cwd(), pat)` and
`findDirsR d` for `findDirectories(process.cwd(), d)`. -/
structure Env where
  cwd : Str
  homedir : Str
  findFilesR : Str → List Str
  findDirsR : Str → List Str
  existsFile : Str → Bool

/-- Errors raised by the resolution phase; one constructor per `throw`
site, carrying the data interpolated into the message (surrounding
quotation marks of the messages are cosmetic and omitted). -/
inductive ResolveErr where
  | invalidLocation (toLoc exSuffix : Str)
  | cannotWriteOnWindows (toLoc exSuffix : Str)
  | cannotWrite (toLoc exSuffix : Str)
  | hostNotFound (exSuffix : Str)
  | dirNotFound (dirName exSuffix : Str)
  | fileNotFound (toLoc exSuffix : Str)
  | unknownLocation (toLoc exSuffix : Str)
  | invalidFileName (fileName url : Str)
deriving DecidableEq

/-- POSIX model of Node's `path.dirname`: text before the last slash, `.`
when there is no slash, `/` when the last slash is leading. -/
def dirname (p : Str) : Str :=
  match List.findIdx? (fun c => c == '/') p.reverse with
  | none => ['.']
  | some jr =>
    let i := p.length - 1 - jr
    if i = 0 then ['/'] else p.take i

/-- The `HOST_FILES` marker list (lines 38-45). -/
def hostFiles : List Str :=
  [(r"appsettings.json").data, (r"Web.config").data, (r"App.config").data,
   (r"Startup.cs").data, (r"Program.cs").data, (r"*.csproj").data]

/-- The `$HOST` search of `resolveBasePath` (lines 421-427): the directory
of the first file found for the first marker pattern with any result. -/
def firstHostDir (env : Env) : Option Str :=
  hostFiles.findSome? fun hf =>
    match env.findFilesR hf with
    | [] => none
    | f :: _ => some (dirname f)

/-- Literal fragments used by the resolver. -/
def dotL : Str := ['.']
def ddotL : Str := ['.', '.']
def driveSepL : Str := [':', '\\']
def dollarL : Str := ['$']
def hostTokL : Str := (r"$HOST").data
def homeTokL : Str := (r"$HOME").data
def slashL : Str := ['/']

/-- Embedding of `resolveBasePath` (lines 396-451).  The branch structure
follows the source exactly: `.`/absent hints resolve to the working
directory; a hint containing `..` is rejected; absolute POSIX and Windows
paths are platform-checked; `$HOST` searches the marker files; `$HOME` is
substituted; other `$`-hints fall through to the final `Unknown location`
error; other hints search the tree for a directory (trailing slash) or a
file. -/
def resolveBasePath (env : Env) (cfg : Config) (toLoc : Str) (exSuffix : Str) :
    Except ResolveErr Str :=
  if toLoc = dotL ∨ toLoc = [] then .ok env.cwd
  else if containsSub toLoc ddotL then .error (.invalidLocation toLoc exSuffix)
  else if startsWithStr toLoc slashL then
    if cfg.isWin then .error (.cannotWriteOnWindows toLoc exSuffix) else .ok toLoc
  else if containsSub toLoc driveSepL then
    if !cfg.isWin then .error (.cannotWrite toLoc exSuffix) else .ok toLoc
  else if startsWithStr toLoc dollarL then
    if startsWithStr toLoc hostTokL then
      match firstHostDir env with
      | some d => .ok d
      | none => .error (.hostNotFound exSuffix)
    else if startsWithStr toLoc homeTokL then
      .ok (replaceFirstStr homeTokL env.homedir toLoc)
    else .error (.unknownLocation toLoc exSuffix)
  else
    if endsWithStr toLoc slashL then
      let dirName := dropLastN toLoc 1
      match env.findDirsR dirName with
      | [] => .error (.dirNotFound dirName exSuffix)
      | d :: _ => .ok d
    else
      match env.findFilesR toLoc with
      | [] => .error (.fileNotFound toLoc exSuffix)
      | f :: _ => .ok (dirname f)

/-- POSIX model of Node's `path.resolve(base, p)` for an absolute `base`:
`p` itself when absolute, otherwise `base/p` (segment normalization beyond
this is not exercised by the embedded pipeline). -/
def pathResolve (base p : Str) : Str :=
  if p = [] then base
  else if startsWithStr p slashL then p
  else base ++ slashL ++ p

/-- Literal used by the JS string coercion `projName + '.'` when the
project name is `null`. -/
def nullLitL : Str := (r"null").data

/-- Core of `resolveFilePath` (lines 519-525, 539): token-substitute the
gist file path, strip a trailing optional marker `?`, and resolve against
the base path. -/
def resolveFilePathCore (cfg : Config) (gistFilePath basePath : Str)
    (projName : Option Str) : Str :=
  let fileName := replaceMyApp cfg (osPaths cfg gistFilePath) projName
  let fileName :=
    if endsWithStr fileName ['?'] then dropLastN fileName 1 else fileName
  pathResolve basePath (osPaths cfg fileName)

/-- Embedding of `resolveFilePath` (lines 519-540), including the `$HOST`
qualified-path fallback: when the hint is `$HOST`, the gist path writes to
a folder (contains a backslash) and the naive destination's directory does
not exist, retry with `projName + '.' + gistFilePath` against the current
working directory, keeping the retry only when its directory exists. -/
def resolveFilePath (env : Env) (cfg : Config) (gistFilePath basePath : Str)
    (projName : Option Str) (applyTo : Str) : Str :=
  let resolvedFile := resolveFilePathCore cfg gistFilePath basePath projName
  let writesToFolder := gistFilePath.any (fun c => c == '\\')
  if applyTo = hostTokL && writesToFolder &&
      !env.existsFile (dirname resolvedFile) then
    let tryPath :=
      (match projName with | some p => p | none => nullLitL) ++ dotL ++ gistFilePath
    let resolvedPath := resolveFilePathCore cfg tryPath env.cwd projName
    if env.existsFile (dirname resolvedPath) then resolvedPath else resolvedFile
  else resolvedFile

/-- A concrete write target of the apply pipeline (the `resolvedFiles`
entries of `writeGistFile`, lines 695-699). -/
structure ResolvedFile where
  path : Str
  content : Str
  originalName : Str
deriving DecidableEq

/-- The reserved initialization filename `_init` (line 683). -/
def initNameL : Str := (r"_init").data

/-- The `exSuffix` string of `writeGistFile` (line 680), quotation marks
around the alias omitted as cosmetic. -/
def mkExSuffix (gistAlias : Option Str) (url : Str) : Str :=
  (r" required by ").data ++
  (match gistAlias with | some a => a ++ [' '] | none => []) ++ url

/-- The resolution loop of `writeGistFile` (lines 674-700), processing the
fetched bundle entries in order: reject any filename containing `..`,
resolve the base path for every file, divert `_init` to the init slot,
skip existing files under preserve/optional-marker, and otherwise record
the resolved destination with token-substituted content. -/
def resolveGistFilesGo (env : Env) (cfg : Config) (toLoc : Str)
    (projName : Option Str) (gistLinkUrl : Str) (gistAlias : Option Str) :
    List (Str × Str) → Option Str → List ResolvedFile →
    Except ResolveErr (List ResolvedFile × Option Str)
  | [], initF, acc => .ok (acc.reverse, initF)
  | (fileName, content) :: rest, initF, acc =>
    if containsSub fileName ddotL then
      .error (.invalidFileName fileName gistLinkUrl)
    else
      match resolveBasePath env cfg toLoc (mkExSuffix gistAlias gistLinkUrl) with
      | .error e => .error e
      | .ok basePath =>
        if fileName = initNameL then
          resolveGistFilesGo env cfg toLoc projName gistLinkUrl gistAlias rest
            (some content) acc
        else
          let resolvedFile := resolveFilePath env cfg fileName basePath projName toLoc
          let noOverride := cfg.preserve || endsWithStr fileName ['?']
          if noOverride && env.existsFile resolvedFile then
            resolveGistFilesGo env cfg toLoc projName gistLinkUrl gistAlias rest
              initF acc
          else
            resolveGistFilesGo env cfg toLoc projName gistLinkUrl gistAlias rest
              initF
              ({ path := resolvedFile,
                 content := replaceMyApp cfg content projName,
                 originalName := fileName } :: acc)

/-- The resolution phase of `writeGistFile` on a fetched bundle: the
sanitized project name (line 667) is applied, and the bundle entries are
processed in order. -/
def resolveGistFiles (env : Env) (cfg : Config) (files : List (Str × Str))
    (gistAlias : Option Str) (gistLinkUrl : Str) (toLoc : Str)
    (projName : Option Str) :
    Except ResolveErr (List ResolvedFile × Option Str) :=
  let projName := match projName with
    | none => none
    | some p => sanitizeProjectName p
  resolveGistFilesGo env cfg toLoc projName gistLinkUrl gistAlias files none []

/-! Embedding of the command sandbox inside `writeGistFile`
(lines 722-790): per-line decision whether an init-script line is
executed, and with which executable and argument vector. -/

/-- A spawned external process call: `spawnSync(executable, args, {shell:
false})` (lines 777-781).  `shellUsed` records the `shell` option. -/
structure SpawnCall where
  executable : Str
  args : List Str
  shellUsed : Bool
deriving DecidableEq

/-- The allowed tool prefixes (line 733). -/
def allowedToolL : List Str :=
  [(r"npm ").data, (r"yarn ").data, (r"pnpm ").data, (r"nuget ").data,
   (r"dotnet ").data, (r"flutter ").data, (r"dart ").data, (r"kamal ").data]

/-- Subcommand allow-lists and related literals (lines 742-760). -/
def nugetL : Str := (r"nuget").data
def nugetAllowedL : List Str :=
  [(r"nuget add").data, (r"nuget restore").data, (r"nuget update").data]
def dotnetL : Str := (r"dotnet").data
def dotnetAllowedL : List Str := [(r"dotnet add ").data, (r"dotnet restore").data]
def dotnetRestoreL : Str := (r"dotnet restore").data
def flutterL : Str := (r"flutter").data
def flutterCreateL : Str := (r"flutter create ").data
def dartL : Str := (r"dart").data
def dartAllowedL : List Str := [(r"dart pub add").data, (r"dart pub get").data]
def kamalL : Str := (r"kamal").data
def kamalInitL : Str := (r"kamal init").data

/-- The illegal-character class of the regex `/["'&;$@|>]/` (line 764). -/
def illegalCmdChars : List Char :=
  ['"', squoteCh, '&', ';', '$', '@', '|', '>']

/-- Illegal-character test for an init-script command line. -/
def hasIllegalCmdChar (cmd : Str) : Bool :=
  cmd.any (fun c => illegalCmdChars.any (fun d => c == d))

/-- Embedding of the per-line sandbox decision (lines 726-781): comment
lines and lines without an allowed tool prefix are skipped; the
tool-specific subcommand allow-lists are enforced; any line containing an
illegal character is rejected; an accepted line is split on single spaces
into an executable plus argument vector (arguments receive token
substitution with the dots of the project name turned into underscores)
and spawned without a shell. -/
def sandboxLine (cfg : Config) (projName : Str) (line : Str) :
    Option SpawnCall :=
  let trimmed := trimStr line
  if startsWithStr trimmed ['#'] then none
  else
    let cmd := trimmed
    if !(allowedToolL.any (fun p => startsWithStr cmd p)) then none
    else if startsWithStr cmd nugetL &&
        !(nugetAllowedL.any (fun p => startsWithStr cmd p)) then none
    else if startsWithStr cmd dotnetL &&
        !(dotnetAllowedL.any (fun p => startsWithStr cmd p)) &&
        cmd ≠ dotnetRestoreL then none
    else if startsWithStr cmd flutterL && !startsWithStr cmd flutterCreateL then
      none
    else if startsWithStr cmd dartL &&
        !(dartAllowedL.any (fun p => startsWithStr cmd p)) then none
    else if startsWithStr cmd kamalL && !startsWithStr cmd kamalInitL then none
    else if hasIllegalCmdChar cmd then none
    else
      let cmdParts := splitOnChar ' ' cmd
      let executable := cmdParts.headD []
      let rawArgs := cmdParts.tail
      let pn2 := projName.map (fun c => if c == '.' then '_' else c)
      some { executable,
             args := rawArgs.map (fun a => replaceMyApp cfg a (some pn2)),
             shellUsed := false }

/-! Embedding of the JSON patch engine `patchJsonFile` (lines 625-661),
the post-write patch hook of `writeGistFile` (lines 816-823), and the
delete pipeline `deleteGists` (lines 924-994).  JSON documents are an
inductive value type; the filesystem is an association list of parsed file
contents plus a directory list. -/

/-- JSON documents. -/
inductive Json where
  | null
  | bool (b : Bool)
  | num (n : Int)
  | str (s : Str)
  | arr (elems : List Json)
  | obj (fields : List (Str × Json))

/-- One JSON patch operation `{op, path, value?}`. -/
structure PatchOp where
  op : Str
  path : Str
  value : Json := .null

/-- Errors of the patch engine: the `TypeError` JS raises when the `in`
operator meets a non-object while navigating, and a `JSON.parse` failure
on non-JSON file content. -/
inductive PatchErr where
  | typeErr
  | parseErr
deriving DecidableEq

/-- JS object property read on an association list. -/
def jsonGet (fields : List (Str × Json)) (k : Str) : Option Json :=
  (fields.find? (fun kv => kv.1 == k)).map (fun kv => kv.2)

/-- JS object property assignment: overwrite in place when the key exists
(keeping its position), append otherwise. -/
def jsonSetKey (fields : List (Str × Json)) (k : Str) (v : Json) :
    List (Str × Json) :=
  match fields with
  | [] => [(k, v)]
  | (k', v') :: t =>
    if k' = k then (k, v) :: t else (k', v') :: jsonSetKey t k v

/-- JS `delete` of a property: remove the (first) binding of the key. -/
def jsonDelKey (fields : List (Str × Json)) (k : Str) : List (Str × Json) :=
  match fields with
  | [] => []
  | (k', v') :: t => if k' = k then t else (k', v') :: jsonDelKey t k

/-- Patch-operation literals. -/
def addOpL : Str := (r"add").data
def replaceOpL : Str := (r"replace").data
def removeOpL : Str := (r"remove").data
def undefinedL : Str := (r"undefined").data

/-- The effect of one operation at its target node (lines 649-657): on an
object, `add`/`replace` set the last key and `remove` deletes it, while
unrecognized kinds change nothing; on a primitive, property assignment and
deletion are silent no-ops in sloppy-mode JS. -/
def finOp (opName lastKey : Str) (v : Json) (target : Json) : Json :=
  match target with
  | .obj fields =>
    if opName = addOpL ∨ opName = replaceOpL then .obj (jsonSetKey fields lastKey v)
    else if opName = removeOpL then .obj (jsonDelKey fields lastKey)
    else .obj fields
  | other => other

/-- Navigation of the pointer's parent segments (lines 639-645): descend
through object fields, creating an empty object at a missing key, and
rebuild on the way out; the JS `in` operator on a non-object node raises a
`TypeError` (arrays are not modelled as property carriers). -/
def navApply (doc : Json) (parents : List Str) (fin : Json → Json) :
    Except PatchErr Json :=
  match parents with
  | [] => .ok (fin doc)
  | p :: rest =>
    match doc with
    | .obj fields =>
      let child := (jsonGet fields p).getD (.obj [])
      (navApply child rest fin).map (fun c2 => .obj (jsonSetKey fields p c2))
    | _ => .error .typeErr

/-- One patch operation (lines 634-658): split the slash-delimited pointer,
drop empty segments, navigate all but the last segment, and apply the
operation at the last one (an empty segment list makes JS index the target
with the property key `undefined`). -/
def applyOp (doc : Json) (op : PatchOp) : Except PatchErr Json :=
  let parts := (splitOnChar '/' op.path).filter (· ≠ [])
  let lastKey := parts.getLastD undefinedL
  navApply doc parts.dropLast (finOp op.op lastKey op.value)

/-- The whole patch document, in document order. -/
def applyPatch (doc : Json) (ops : List PatchOp) : Except PatchErr Json :=
  ops.foldlM applyOp doc

/-- Parsed content of a file on disk. -/
inductive FileData where
  | text (s : Str)
  | jsonDoc (j : Json)
  | patchDoc (ops : List PatchOp)

/-- The filesystem model: parsed file contents keyed by path, plus the
existing directories. -/
structure FileSys where
  files : List (Str × FileData)
  dirs : List Str

/-- Content of a file, when present. -/
def fsLookup (fs : FileSys) (p : Str) : Option FileData :=
  (fs.files.find? (fun f => f.1 == p)).map (fun f => f.2)

/-- Model of `fs.existsSync` on a file path. -/
def fileExistsF (fs : FileSys) (p : Str) : Bool := (fsLookup fs p).isSome

/-- Model of `fs.writeFileSync`: overwrite in place or append. -/
def fsWrite (fs : FileSys) (p : Str) (d : FileData) : FileSys :=
  { fs with files := jsonSetKeyF fs.files p d }
where
  /-- Association-list upsert for file entries. -/
  jsonSetKeyF (l : List (Str × FileData)) (k : Str) (v : FileData) :
      List (Str × FileData) :=
    match l with
    | [] => [(k, v)]
    | (k', v') :: t =>
      if k' = k then (k, v) :: t else (k', v') :: jsonSetKeyF t k v

/-- Model of `fs.unlinkSync`: remove the file entry. -/
def fsRemove (fs : FileSys) (p : Str) : FileSys :=
  { fs with files := fs.files.filter (fun f => f.1 ≠ p) }

/-- Model of `fs.rmSync` on a directory (non-recursive). -/
def fsRmdir (fs : FileSys) (d : Str) : FileSys :=
  { fs with dirs := fs.dirs.filter (fun q => q ≠ d) }

/-- Model of `fs.readdirSync`: the paths (files and directories) whose parent is
`d`. -/
def fsReaddir (fs : FileSys) (d : Str) : List Str :=
  (fs.files.map (fun f => f.1)).filter (fun p => dirname p = d) ++
    fs.dirs.filter (fun q => dirname q = d)

/-- Embedding of `patchJsonFile` (lines 625-661) over the filesystem
model: create the target as `{}` when absent, parse target and patch file,
apply the operations in order, and write the patched document back.
Content that does not parse as the expected JSON shape is a
`JSON.parse`/shape failure. -/
def patchJsonFileF (fs : FileSys) (targetFile patchFile : Str) :
    Except PatchErr FileSys :=
  let fs1 :=
    if (fsLookup fs targetFile).isSome then fs
    else fsWrite fs targetFile (.jsonDoc (.obj []))
  match fsLookup fs1 targetFile, fsLookup fs1 patchFile with
  | some (.jsonDoc t), some (.patchDoc ops) =>
    (applyPatch t ops).map (fun t2 => fsWrite fs1 targetFile (.jsonDoc t2))
  | _, _ => .error .parseErr

/-- The JSON-patch marker suffix `.json.patch` (line 816). -/
def patchSuffixL : Str := (r".json.patch").data

/-- Embedding of the post-write patch hook of `writeGistFile`
(lines 816-823): after writing a file whose path ends in the patch marker,
and only when the target (the path with `.patch` stripped) already exists,
apply the patch to the target and delete the patch file. -/
def handlePatchSuffix (fs : FileSys) (filePath : Str) :
    Except PatchErr FileSys :=
  if endsWithStr filePath patchSuffixL then
    let patchTarget := dropLastN filePath 6
    if (fsLookup fs patchTarget).isSome then
      (patchJsonFileF fs patchTarget filePath).map (fun f2 => fsRemove f2 filePath)
    else .ok fs
  else .ok fs

/-- Insertion-order deduplication (model of `new Set(...)` iteration). -/
def dedupKeepFirst : List Str → List Str
  | [] => []
  | x :: t => x :: (dedupKeepFirst t).filter (fun y => y ≠ x)

/-- Stable sort by descending length (model of
`[...folders].sort((a, b) => b.length - a.length)`). -/
def sortByLenDesc (l : List Str) : List Str :=
  l.mergeSort (fun a b => b.length ≤ a.length)

/-- Embedding of the deletion phase of `deleteGists` (lines 924-994) on
the already-resolved candidate destination paths of the whole batch, in
order: keep only the candidates that exist on disk; when none exists,
report the no-files-found outcome (`false`) without touching the
filesystem; otherwise unlink each file, collect the distinct parent
directories, and remove, longest path first, those that are now empty. -/
def deleteResolvedFiles (fs : FileSys) (candidates : List Str) :
    FileSys × Bool :=
  let allResolvedFiles := candidates.filter (fun p => fileExistsF fs p)
  if allResolvedFiles.isEmpty then (fs, false)
  else
    let fs1 := allResolvedFiles.foldl fsRemove fs
    let folders := dedupKeepFirst (allResolvedFiles.map dirname)
    let fs2 := (sortByLenDesc folders).foldl
      (fun f d => if fsReaddir f d = [] then fsRmdir f d else f) fs1
    (fs2, true)

/-- Project name of the C5 counterexample. -/
def c5proj : Str := (r"App").data

/-- Input of the C5 counterexample. -/
def c5input : Str := (r"mymy_app").data

/-- The `add` operation of the C7 example. -/
def c7op1 : PatchOp := { op := addOpL, path := (r"/a/b").data, value := .num 1 }

/-- Fixture filesystem for the C9 witness. -/
def c9fs : FileSys :=
  { files := [((r"./keep.txt").data, .text [])], dirs := [(r"./sub").data] }

/-- Environment fixture used by witnesses: empty project tree. -/
def env0 : Env :=
  { cwd := (r"/cwd").data, homedir := (r"/home/u").data,
    findFilesR := fun _ => [], findDirsR := fun _ => [],
    existsFile := fun _ => false }

/-- The seven rejected characters named by the claim (the code's class
also contains `>`). -/
def claimIllegalChars : List Char :=
  ['"', squoteCh, '&', ';', '$', '@', '|']

/-- A record with every field empty, used as a `getD` default. -/
def dummyRec : LinkRecord := buildRecord [] [] []

/-- Registry line fixtures for the C3 results. -/
def c3gistLine : Str := (r" - [t](https://gist.github.com/mythz/abc) d").data
def c3ghLine : Str := (r" - [t](https://github.com/mythz/repo) d").data

/-- The records the parser produces for the fixtures. -/
def c3gistRec : LinkRecord := (parseGistLink c3gistLine).getD dummyRec
def c3ghRec : LinkRecord := (parseGistLink c3ghLine).getD dummyRec

/-- Registry line fixtures for the C4 results. -/
def c4emptyLine : Str := (r" - [t](u) `` d").data
def c4dupLine : Str := (r" - [t](u) `a,a` d").data
def c4line : Str := (r" - [sqlite](u) `db, lite` x").data

/-- The record the parser produces for the well-formed fixture. -/
def c4rec : LinkRecord := (parseGistLink c4line).getD dummyRec

/-- Fixtures for the C8 witness. -/
def c8patchPath : Str := (r"/x/cfg.json.patch").data
def c8op : PatchOp := { op := addOpL, path := (r"/k").data, value := .bool true }
def c8fsMissing : FileSys := { files := [(c8patchPath, .patchDoc [c8op])], dirs := [] }
def c8fsPresent : FileSys :=
  { files := [((r"/x/cfg.json").data, .jsonDoc (.obj [])),
              (c8patchPath, .patchDoc [c8op])], dirs := [] }
def c8fsAfter : FileSys :=
  { files := [((r"/x/cfg.json").data,
               .jsonDoc (.obj [((r"k").data, .bool true)]))], dirs := [] }

/-- The `remove` operation of the C7 example. -/
def c7op2 : PatchOp := { op := removeOpL, path := (r"/a/b").data }

/-- An operation with an unrecognized kind. -/
def c7opUnknown : PatchOp := { op := (r"test").data, path := (r"/a").data }

/-- The intermediate document `{"a":{"b":1}}`. -/
def c7doc1 : Json := .obj [((r"a").data, .obj [((r"b").data, .num 1)])]

/-! General lemmas about the string and filesystem primitives. -/

/-- Reading back the code point of a character built from a small `Nat`. -/
theorem toNat_ofNat_valid (n : Nat) (h : n < 0xd800) : (Char.ofNat n).toNat = n := by
  have hv : n.isValidChar := Or.inl h
  rw [Char.ofNat, dif_pos hv]
  simp [Char.ofNatAux, Char.toNat, UInt32.toNat, BitVec.toNat_ofNatLt]

/-- Characters with equal code points are equal. -/
theorem char_eq_of_toNat_eq {c d : Char} (h : c.toNat = d.toNat) : c = d := by
  apply Char.eq_of_val_eq
  exact UInt32.toNat.inj h

/-- Separator membership expressed on code points. -/
theorem isSep_iff_toNat (c : Char) :
    isSep c = true ↔ c.toNat = 32 ∨ c.toNat = 45 ∨ c.toNat = 43 ∨ c.toNat = 95 := by
  constructor
  · intro h
    simp only [isSep, sepChars, List.any_cons, List.any_nil, Bool.or_false,
      Bool.or_eq_true, beq_iff_eq] at h
    rcases h with h | h | h | h <;> subst h <;> simp [Char.toNat]
  · intro h
    have : c = ' ' ∨ c = '-' ∨ c = '+' ∨ c = '_' := by
      rcases h with h | h | h | h
      · exact Or.inl (char_eq_of_toNat_eq h)
      · exact Or.inr (Or.inl (char_eq_of_toNat_eq h))
      · exact Or.inr (Or.inr (Or.inl (char_eq_of_toNat_eq h)))
      · exact Or.inr (Or.inr (Or.inr (char_eq_of_toNat_eq h)))
    rcases this with h | h | h | h <;> subst h <;> decide

/-- Lower-case bounds extracted from `isLowerAscii`. -/
theorem isLowerAscii_bounds {c : Char} (h : isLowerAscii c = true) :
    97 ≤ c.toNat ∧ c.toNat ≤ 122 := by
  simpa [isLowerAscii, Bool.and_eq_true, decide_eq_true_eq] using h

/-- Uppercasing never produces a separator character (and never removes
one, since the four separators are not lowercase letters). -/
theorem isSep_toUpperChar (c : Char) : isSep (toUpperChar c) = isSep c := by
  unfold toUpperChar
  by_cases hl : isLowerAscii c = true
  · rw [if_pos hl]
    obtain ⟨h1, h2⟩ := isLowerAscii_bounds hl
    have ht : (Char.ofNat (c.toNat - 32)).toNat = c.toNat - 32 :=
      toNat_ofNat_valid _ (by omega)
    have e1 : isSep (Char.ofNat (c.toNat - 32)) = false := by
      by_contra hs
      have := (isSep_iff_toNat _).mp (by
        cases hx : isSep (Char.ofNat (c.toNat - 32)) with
        | true => rfl
        | false => exact absurd hx hs)
      rw [ht] at this
      omega
    have e2 : isSep c = false := by
      by_contra hs
      have := (isSep_iff_toNat c).mp (by
        cases hx : isSep c with
        | true => rfl
        | false => exact absurd hx hs)
      omega
    rw [e1, e2]
  · rw [if_neg hl]

/-- A pattern-free string is untouched by the fuelled replacement scan. -/
theorem replaceAllFuel_of_not_contains (pat rep : Str) :
    ∀ (s : Str) (fuel : Nat), containsSub s pat = false →
      replaceAllFuel fuel pat rep s = s := by
  intro s
  induction s with
  | nil => intro fuel _; cases fuel <;> rfl
  | cons c t ih =>
    intro fuel h
    simp only [containsSub, Bool.or_eq_false_iff] at h
    cases fuel with
    | zero => rfl
    | succ fuel =>
      simp only [replaceAllFuel, h.1, Bool.and_false, Bool.false_and, if_neg,
        Bool.false_eq_true, not_false_eq_true]
      exact congrArg (c :: ·) (ih fuel h.2)

/-- A pattern-free string is untouched by global replacement. -/
theorem replaceAllStr_of_not_contains (pat rep s : Str)
    (h : containsSub s pat = false) : replaceAllStr pat rep s = s :=
  replaceAllFuel_of_not_contains pat rep s s.length h

/-- A placeholder-free string is a fixed point of the placeholder-family
substitution. -/
theorem placeholderSubst_eq_self (s p : Str)
    (h : containsAnyPlaceholder s = false) : placeholderSubst s p = s := by
  simp only [containsAnyPlaceholder, placeholderFamily, List.any_cons,
    List.any_nil, Bool.or_false, Bool.or_eq_false_iff] at h
  obtain ⟨h1, h2, h3, h4, h5, h6⟩ := h
  simp only [placeholderSubst]
  rw [replaceAllStr_of_not_contains _ _ _ h1,
    replaceAllStr_of_not_contains _ _ _ h2,
    replaceAllStr_of_not_contains _ _ _ h3,
    replaceAllStr_of_not_contains _ _ _ h4,
    replaceAllStr_of_not_contains _ _ _ h5,
    replaceAllStr_of_not_contains _ _ _ h6]

/-- Membership in a concatenation of strings. -/
theorem mem_joinStr {c : Char} {L : List Str} :
    c ∈ joinStr L ↔ ∃ w ∈ L, c ∈ w := by
  induction L with
  | nil => simp [joinStr]
  | cons w t ih =>
    simp only [joinStr, List.foldr_cons, List.mem_append, List.mem_cons]
    constructor
    · rintro (hc | hc)
      · exact ⟨w, Or.inl rfl, hc⟩
      · obtain ⟨w', hw', hc'⟩ := ih.mp hc
        exact ⟨w', Or.inr hw', hc'⟩
    · rintro ⟨w', hw' | hw', hc'⟩
      · subst hw'; exact Or.inl hc'
      · exact Or.inr (ih.mpr ⟨w', hw', hc'⟩)

/-- Fragments produced by `splitOnPred` contain no separator character. -/
theorem splitOnPred_no_sep (p : Char → Bool) :
    ∀ (s w : Str), w ∈ splitOnPred p s → ∀ c ∈ w, p c = false := by
  intro s
  induction s with
  | nil =>
    intro w hw c hc
    simp only [splitOnPred, List.mem_singleton] at hw
    subst hw
    simp at hc
  | cons c0 t ih =>
    intro w hw c hc
    simp only [splitOnPred] at hw
    by_cases hp : p c0 = true
    · rw [if_pos hp] at hw
      rcases List.mem_cons.mp hw with hw | hw
      · subst hw; simp at hc
      · exact ih w hw c hc
    · rw [if_neg hp] at hw
      cases hr : splitOnPred p t with
      | nil =>
        rw [hr] at hw
        simp only [List.mem_singleton] at hw
        subst hw
        rcases List.mem_singleton.mp hc with rfl
        simpa using hp
      | cons w0 ws =>
        rw [hr] at hw
        rcases List.mem_cons.mp hw with hw | hw
        · subst hw
          rcases List.mem_cons.mp hc with rfl | hc'
          · simpa using hp
          · exact ih w0 (hr ▸ List.mem_cons_self w0 ws) c hc'
        · exact ih w (hr ▸ List.mem_cons_of_mem w0 hw) c hc

/-- The head of a `dropWhile` result never satisfies the predicate. -/
theorem head_dropWhile_false (p : Char → Bool) :
    ∀ (s : Str) (h : Char), (s.dropWhile p).head? = some h → p h = false := by
  intro s
  induction s with
  | nil => intro h hh; simp [List.dropWhile] at hh
  | cons c t ih =>
    intro h hh
    by_cases hc : p c = true
    · rw [List.dropWhile_cons_of_pos hc] at hh
      exact ih h hh
    · rw [List.dropWhile_cons_of_neg hc] at hh
      simp only [List.head?_cons, Option.some_inj] at hh
      subst hh
      simpa using hc

/-- Lemma: `dropWhile` is the identity when the head already fails the predicate. -/
theorem dropWhile_eq_self_of_head (p : Char → Bool) (l : Str)
    (hl : ∀ h, l.head? = some h → p h = false) : l.dropWhile p = l := by
  cases l with
  | nil => rfl
  | cons c t => exact List.dropWhile_cons_of_neg (by simp [hl c rfl])

/-- A non-empty list shares its head with any list it is a prefix of. -/
theorem head?_of_isPrefix {l₁ l₂ : Str} (h : l₁ <+: l₂) (hne : l₁ ≠ []) :
    l₁.head? = l₂.head? := by
  obtain ⟨u, rfl⟩ := h
  cases l₁ with
  | nil => exact absurd rfl hne
  | cons c t => rfl

/-- Unfolding of `trimStr` through Mathlib's `rdropWhile`. -/
theorem trimStr_eq_rdropWhile (s : Str) :
    trimStr s = List.rdropWhile isWsChar (s.dropWhile isWsChar) := rfl

/-- JS `trim` is idempotent. -/
theorem trimStr_idem (s : Str) : trimStr (trimStr s) = trimStr s := by
  rw [trimStr_eq_rdropWhile, trimStr_eq_rdropWhile]
  have h1 : (List.rdropWhile isWsChar (s.dropWhile isWsChar)).dropWhile isWsChar =
      List.rdropWhile isWsChar (s.dropWhile isWsChar) := by
    apply dropWhile_eq_self_of_head
    intro h hh
    have hne : List.rdropWhile isWsChar (s.dropWhile isWsChar) ≠ [] := by
      intro he
      rw [he] at hh
      exact Option.noConfusion hh
    rw [head?_of_isPrefix (List.rdropWhile_prefix _ _) hne] at hh
    exact head_dropWhile_false isWsChar s h hh
  rw [h1, List.rdropWhile_idempotent]

/-- Looking up a path after removing it yields nothing. -/
theorem fsLookup_fsRemove_self (fs : FileSys) (p : Str) :
    fsLookup (fsRemove fs p) p = none := by
  simp only [fsLookup, fsRemove]
  suffices h : ∀ l : List (Str × FileData),
      (l.filter (fun f => f.1 ≠ p)).find? (fun f => f.1 == p) = none by
    rw [h fs.files]
    rfl
  intro l
  induction l with
  | nil => rfl
  | cons f t ih =>
    by_cases h : f.1 = p
    · rw [List.filter_cons, if_neg (by simp [h])]
      exact ih
    · rw [List.filter_cons, if_pos (by simp [h])]
      rw [List.find?_cons_of_neg _ (by simp [h])]
      exact ih

/-- Characterization of a successful `Except.map`. -/
theorem except_map_eq_ok {ε α β : Type} (f : α → β) (e : Except ε α) (b : β) :
    e.map f = .ok b ↔ ∃ a, e = .ok a ∧ f a = b := by
  cases e with
  | error err => simp [Except.map]
  | ok a => simp [Except.map]

/-! Claim C5: idempotence of the placeholder-family substitution. -/

/-- Claim C5 is false as stated: with project name `App` (which contains
none of the six placeholder spellings), substituting `mymy_app` once
yields `myapp` — the final `my_app` replacement manufactures a new
occurrence of the earlier-scanned placeholder `myapp` — so a second
application rewrites it again, to `app`. -/
theorem c5_idempotence_counterexample :
    containsAnyPlaceholder c5proj = false ∧
    placeholderSubst c5input c5proj = (r"myapp").data ∧
    placeholderSubst (placeholderSubst c5input c5proj) c5proj ≠
      placeholderSubst c5input c5proj := by
  refine ⟨by decide, by decide, ?_⟩
  decide

/-- Amended claim C5: the placeholder-family substitution is idempotent on
inputs whose once-substituted output contains none of the six placeholder
spellings — a second application then changes nothing. -/
theorem c5_idempotence_amended (s p : Str)
    (h : containsAnyPlaceholder (placeholderSubst s p) = false) :
    placeholderSubst (placeholderSubst s p) p = placeholderSubst s p :=
  placeholderSubst_eq_self (placeholderSubst s p) p h

/-- Witness for C5's amended theorem at a concrete input. -/
theorem c5_idempotence_amended_witness :
    placeholderSubst (placeholderSubst ((r"hello MyApp").data) ((r"Acme").data))
        ((r"Acme").data) =
      placeholderSubst ((r"hello MyApp").data) ((r"Acme").data) :=
  c5_idempotence_amended ((r"hello MyApp").data) ((r"Acme").data) (by decide)

/-! Claim C6: the concrete substitutions for caller-supplied project name
`my_app`. -/

/-- Claim C6 is false as stated: the caller-supplied name `my_app` is
sanitized to `MyApp` before substitution (line 667), so the placeholder
`MyApp` is replaced by the condensed form `MyApp`, not by `myapp` as the
claim asserts. -/
theorem c6_myapp_substitution_counterexample :
    sanitizeProjectName ((r"my_app").data) = some ((r"MyApp").data) ∧
    replaceMyApp cfg0 phMyApp (sanitizeProjectName ((r"my_app").data)) =
      (r"MyApp").data ∧
    (r"MyApp").data ≠ (r"myapp").data := by
  refine ⟨by decide, by decide, by decide⟩

/-- Amended claim C6: with caller-supplied name `my_app`, sanitization
produces `MyApp`, and the placeholder substitutions yield
`MyApp` → `MyApp`, `my-app` → `my-app`, `myapp` → `myapp`,
`My App` → `My App`, and `my_app` → `myapp` (the lowercase form of the
sanitized project name). -/
theorem c6_myapp_substitution_amended :
    sanitizeProjectName ((r"my_app").data) = some ((r"MyApp").data) ∧
    replaceMyApp cfg0 phMyApp (sanitizeProjectName ((r"my_app").data)) = phMyApp ∧
    replaceMyApp cfg0 phKebab (sanitizeProjectName ((r"my_app").data)) = phKebab ∧
    replaceMyApp cfg0 phLower (sanitizeProjectName ((r"my_app").data)) = phLower ∧
    replaceMyApp cfg0 phMySpaceApp (sanitizeProjectName ((r"my_app").data)) =
      phMySpaceApp ∧
    replaceMyApp cfg0 phSnake (sanitizeProjectName ((r"my_app").data)) = phLower := by
  refine ⟨by decide, by decide, by decide, by decide, by decide, by decide⟩

/-! Claim C7: the JSON patch engine. -/

/-- Claim C7: applying `add /a/b 1` to `{}` creates the missing
intermediate object and yields `{"a":{"b":1}}`; applying `remove /a/b`
afterwards yields `{"a":{}}`; an unrecognized operation kind is ignored;
and operations are processed in document order (the patch fold peels the
first operation first). -/
theorem c7_json_patch :
    applyPatch (.obj []) [c7op1] = .ok c7doc1 ∧
    applyPatch c7doc1 [c7op2] = .ok (.obj [((r"a").data, .obj [])]) ∧
    applyPatch (.obj [((r"x").data, .num 2)]) [c7opUnknown] =
      .ok (.obj [((r"x").data, .num 2)]) ∧
    ∀ (doc : Json) (op : PatchOp) (ops : List PatchOp),
      applyPatch doc (op :: ops) =
        (applyOp doc op).bind (fun d => applyPatch d ops) :=
  ⟨rfl, rfl, rfl, fun _ _ _ => rfl⟩

/-! Claim C9: a delete batch resolving no existing file is a no-op. -/

/-- Claim C9: when none of the resolved destination paths of a delete
batch exists on disk, `deleteGists` reports the no-files-found outcome
(`false`) and leaves the filesystem untouched — no unlink, no directory
removal. -/
theorem c9_delete_noop (fs : FileSys) (candidates : List Str)
    (h : ∀ p ∈ candidates, fileExistsF fs p = false) :
    deleteResolvedFiles fs candidates = (fs, false) := by
  unfold deleteResolvedFiles
  have hf : candidates.filter (fun p => fileExistsF fs p) = [] :=
    List.filter_eq_nil_iff.mpr (fun a ha => by simp [h a ha])
  rw [hf]
  rfl

/-- Witness for C9 at a concrete batch whose candidates do not exist. -/
theorem c9_delete_noop_witness :
    deleteResolvedFiles c9fs [(r"./a.txt").data, (r"./b/c.txt").data] =
      (c9fs, false) :=
  c9_delete_noop c9fs [(r"./a.txt").data, (r"./b/c.txt").data] (by decide)

/-! Claim C10: sanitized project names contain no separator character. -/

/-- Claim C10: for every non-empty input name, the sanitized project name
contains none of the separator characters space, hyphen, plus or
underscore. -/
theorem c10_sanitize_no_separators (name : Str) (h : name ≠ []) :
    ∀ c ∈ (sanitizeProjectName name).getD [], isSep c = false := by
  intro c hc
  unfold sanitizeProjectName at hc
  rw [if_neg h] at hc
  by_cases ha : name.any isSep = true
  · rw [if_neg (by simp [ha])] at hc
    simp only [Option.getD_some] at hc
    rcases mem_joinStr.mp hc with ⟨w, hw, hcw⟩
    rcases List.mem_map.mp hw with ⟨w0, hw0, rfl⟩
    have hw0' : w0 ∈ splitOnPred isSep name := (List.mem_filter.mp hw0).1
    have hchars := splitOnPred_no_sep isSep name w0 hw0'
    cases w0 with
    | nil => simp [titleCaseWord] at hcw
    | cons c0 t =>
      simp only [titleCaseWord] at hcw
      rcases List.mem_cons.mp hcw with rfl | hct
      · rw [isSep_toUpperChar]
        exact hchars c0 (List.mem_cons_self c0 t)
      · exact hchars c (List.mem_cons_of_mem c0 hct)
  · have ha' : name.any isSep = false := by simpa using ha
    rw [if_pos (by simp [ha'])] at hc
    simp only [Option.getD_some] at hc
    by_contra hcs
    exact ha (List.any_eq_true.mpr ⟨c, hc, by simpa using hcs⟩)

/-- Witness for C10: the sanitized form of `my app` contains `M`, which is
not a separator. -/
theorem c10_sanitize_no_separators_witness : isSep 'M' = false :=
  c10_sanitize_no_separators ((r"my app").data) (by decide) 'M' (by decide)

/-! Claim C1: traversal rejection in `resolveBasePath` and in the
`writeGistFile` resolution loop. -/

/-- Claim C1: every location hint containing `..` makes `resolveBasePath`
raise the traversal error (it never resolves to a path), and a fetched
bundle containing any filename with `..` makes the `writeGistFile`
resolution phase raise an error. -/
theorem c1_traversal_rejected :
    (∀ (env : Env) (cfg : Config) (toLoc exSuffix : Str),
      containsSub toLoc ddotL = true →
      resolveBasePath env cfg toLoc exSuffix =
        .error (.invalidLocation toLoc exSuffix)) ∧
    (∀ (env : Env) (cfg : Config) (toLoc : Str) (projName : Option Str)
      (url : Str) (gistAlias : Option Str) (files : List (Str × Str))
      (initF : Option Str) (acc : List ResolvedFile),
      (∃ fc ∈ files, containsSub fc.1 ddotL = true) →
      ∃ e, resolveGistFilesGo env cfg toLoc projName url gistAlias files
        initF acc = .error e) := by
  constructor
  · intro env cfg toLoc exSuffix h
    have h1 : ¬(toLoc = dotL ∨ toLoc = []) := by
      rintro (rfl | rfl) <;> exact absurd h (by decide)
    unfold resolveBasePath
    rw [if_neg h1, if_pos h]
  · intro env cfg toLoc projName url gistAlias files
    induction files with
    | nil =>
      intro initF acc h
      rcases h with ⟨fc, hfc, _⟩
      simp at hfc
    | cons f rest ih =>
      intro initF acc h
      obtain ⟨fn, cont⟩ := f
      by_cases hdd : containsSub fn ddotL = true
      · refine ⟨.invalidFileName fn url, ?_⟩
        simp only [resolveGistFilesGo]
        rw [if_pos hdd]
      · have hrest : ∃ fc ∈ rest, containsSub fc.1 ddotL = true := by
          rcases h with ⟨fc, hfc, hp⟩
          rcases List.mem_cons.mp hfc with rfl | hfc'
          · exact absurd hp hdd
          · exact ⟨fc, hfc', hp⟩
        simp only [resolveGistFilesGo]
        rw [if_neg hdd]
        cases hbp : resolveBasePath env cfg toLoc (mkExSuffix gistAlias url) with
        | error e => exact ⟨e, rfl⟩
        | ok basePath =>
          dsimp only
          split
          · exact ih (some cont) acc hrest
          · split
            · exact ih initF acc hrest
            · exact ih initF _ hrest

/-- Witness for C1 at a concrete hint and a concrete bundle. -/
theorem c1_traversal_rejected_witness :
    resolveBasePath env0 cfg0 ((r"a/../b").data) [] =
      .error (.invalidLocation ((r"a/../b").data) []) ∧
    ∃ e, resolveGistFilesGo env0 cfg0 dotL none ((r"u").data) none
      [((r"../evil").data, [])] none [] = .error e :=
  ⟨c1_traversal_rejected.1 env0 cfg0 ((r"a/../b").data) [] (by decide),
   c1_traversal_rejected.2 env0 cfg0 dotL none ((r"u").data) none
     [((r"../evil").data, [])] none []
     ⟨((r"../evil").data, []), List.mem_singleton.mpr rfl, by decide⟩⟩

/-! Claim C2: the command sandbox. -/

/-- Claim C2: an init-script line containing a quote, ampersand,
semicolon, dollar, at-sign or pipe is never executed, whatever its
prefix; a line not starting with an allowed tool prefix is never
executed; `npm install` is executed by splitting on whitespace into an
executable plus argument vector; and every spawned call has
`shell: false` (no shell interpreter). -/
theorem c2_sandbox_safety :
    (∀ (cfg : Config) (pn line : Str) (c : Char), c ∈ claimIllegalChars →
      c ∈ trimStr line → sandboxLine cfg pn line = none) ∧
    (∀ (cfg : Config) (pn line : Str),
      allowedToolL.any (fun p => startsWithStr (trimStr line) p) = false →
      sandboxLine cfg pn line = none) ∧
    sandboxLine cfg0 ((r"MyApp").data) ((r"npm install").data) =
      some { executable := (r"npm").data, args := [(r"install").data],
             shellUsed := false } ∧
    (∀ (cfg : Config) (pn line : Str) (call : SpawnCall),
      sandboxLine cfg pn line = some call → call.shellUsed = false) := by
  refine ⟨?_, ?_, by decide, ?_⟩
  · intro cfg pn line c hc hmem
    have hcc : illegalCmdChars.any (fun d => c == d) = true := by
      fin_cases hc <;> decide
    have hIll : hasIllegalCmdChar (trimStr line) = true :=
      List.any_eq_true.mpr ⟨c, hmem, hcc⟩
    simp only [sandboxLine]
    repeat' split
    all_goals rfl
  · intro cfg pn line h
    simp only [sandboxLine]
    repeat' split
    all_goals try rfl
    all_goals simp_all
  · intro cfg pn line call h
    simp only [sandboxLine] at h
    repeat' split at h
    all_goals first
      | exact Option.noConfusion h
      | · simp only [Option.some_inj] at h
          subst h
          rfl

/-- Witness for C2: the `$(whoami)` line is rejected despite its allowed
prefix, and `rm -rf /` is never executed. -/
theorem c2_sandbox_safety_witness :
    sandboxLine cfg0 ((r"MyApp").data) ((r"npm install $(whoami)").data) =
      none ∧
    sandboxLine cfg0 ((r"MyApp").data) ((r"rm -rf /").data) = none :=
  ⟨c2_sandbox_safety.1 cfg0 ((r"MyApp").data)
      ((r"npm install $(whoami)").data) '$' (by decide) (by decide),
   c2_sandbox_safety.2.1 cfg0 ((r"MyApp").data) ((r"rm -rf /").data)
      (by decide)⟩

/-! Claim C3: author normalization for legacy handles. -/

/-- Every parsed record is built by `buildRecord` from a match. -/
theorem parseGistLink_eq_buildRecord (line : Str) (rec : LinkRecord)
    (h : parseGistLink line = some rec) :
    ∃ n u r, rec = buildRecord n u r := by
  unfold parseGistLink at h
  by_cases hb : startsWithStr (trimStr line) dashBracketL = true
  · rw [if_pos hb] at h
    cases hm : findLinkMatch (trimStr line) with
    | none => rw [hm] at h; exact Option.noConfusion h
    | some m =>
      rw [hm] at h
      simp only [Option.some_inj] at h
      exact ⟨m.1, m.2.1, trimStr ((trimStr line).drop m.2.2), h.symm⟩
  · rw [if_neg hb] at h
    exact Option.noConfusion h

/-- The url field of a built record is the matched url. -/
theorem buildRecord_url (n u r : Str) : (buildRecord n u r).url = u := by
  simp only [buildRecord]
  repeat' split
  all_goals rfl

/-- A gist-hosting url also carries the bare https scheme. -/
theorem startsWith_https_of_gist (u : Str)
    (h : startsWithStr u gistPfxL = true) : startsWithStr u httpsPfxL = true := by
  have h1 : gistPfxL <+: u := List.isPrefixOf_iff_prefix.mp h
  have h2 : httpsPfxL <+: gistPfxL := ⟨(r"gist.github.com").data, by decide⟩
  exact List.isPrefixOf_iff_prefix.mpr (h2.trans h1)

/-- The user field of a built record with a gist-hosting url whose author
segment is a legacy handle is the canonical organization name. -/
theorem buildRecord_user_gist (n u r : Str)
    (hg : startsWithStr u gistPfxL = true)
    (ha : (splitOnChar '/' (u.drop 8)).get? 1 = some gistlynL ∨
          (splitOnChar '/' (u.drop 8)).get? 1 = some mythzL) :
    (buildRecord n u r).user = some serviceStackL := by
  have hh : startsWithStr u httpsPfxL = true := startsWith_https_of_gist u hg
  simp only [buildRecord]
  rw [if_pos hg]
  show normalizeUser (extractUser0 u) = some serviceStackL
  unfold extractUser0
  rw [if_pos hh]
  rcases ha with ha | ha <;> rw [ha] <;> simp [normalizeUser]

/-- A repository-hosting url is not a gist-hosting url (their prefixes
disagree at the eleventh character). -/
theorem not_gist_of_gh (u : Str) (h : startsWithStr u ghPfxL = true) :
    startsWithStr u gistPfxL = false := by
  cases hx : startsWithStr u gistPfxL with
  | false => rfl
  | true =>
    exfalso
    obtain ⟨t1, rfl⟩ := List.isPrefixOf_iff_prefix.mp hx
    obtain ⟨t2, heq⟩ := List.isPrefixOf_iff_prefix.mp h
    have h11 := congrArg (List.take 11) heq.symm
    rw [List.take_append_of_le_length (by decide),
      List.take_append_of_le_length (by decide)] at h11
    exact absurd h11 (by decide)

/-- The user field of a built record with a repository-hosting url is the
raw owner segment: the normalization performed earlier is overwritten. -/
theorem buildRecord_user_gh (n u r : Str)
    (hg : startsWithStr u ghPfxL = true) :
    (buildRecord n u r).user = some ((splitOnChar '/' (u.drop 19)).headD []) := by
  simp only [buildRecord]
  rw [if_neg (by simp [not_gist_of_gh u hg]), if_pos hg]

/-- Amended claim C3: author normalization to the canonical organization
name holds for gist-style urls (`gist.github.com`), but for generic
repository urls (`github.com`) the record's user is the raw owner path
segment, so the legacy handles are not normalized there. -/
theorem c3_user_normalization_amended :
    (∀ (line : Str) (rec : LinkRecord), parseGistLink line = some rec →
      startsWithStr rec.url gistPfxL = true →
      ((splitOnChar '/' (rec.url.drop 8)).get? 1 = some gistlynL ∨
       (splitOnChar '/' (rec.url.drop 8)).get? 1 = some mythzL) →
      rec.user = some serviceStackL) ∧
    (∀ (line : Str) (rec : LinkRecord), parseGistLink line = some rec →
      startsWithStr rec.url ghPfxL = true →
      rec.user = some ((splitOnChar '/' (rec.url.drop 19)).headD [])) := by
  constructor
  · intro line rec hp hg ha
    obtain ⟨n, u, rr, rfl⟩ := parseGistLink_eq_buildRecord line rec hp
    rw [buildRecord_url] at hg ha
    exact buildRecord_user_gist n u rr hg ha
  · intro line rec hp hg
    obtain ⟨n, u, rr, rfl⟩ := parseGistLink_eq_buildRecord line rec hp
    rw [buildRecord_url] at hg ⊢
    exact buildRecord_user_gh n u rr hg

/-- Claim C3 is false as stated: a generic repository url whose author
segment is the legacy handle `mythz` parses to a record whose user is
still `mythz`, because the `github.com` branch overwrites the normalized
user with the raw owner segment. -/
theorem c3_user_normalization_counterexample :
    (parseGistLink c3ghLine).map LinkRecord.user = some (some mythzL) ∧
    mythzL ≠ serviceStackL := by
  refine ⟨by decide, by decide⟩

/-- Witness for the amended C3 theorem on both fixtures. -/
theorem c3_user_normalization_amended_witness :
    c3gistRec.user = some serviceStackL ∧
    c3ghRec.user = some ((splitOnChar '/' (c3ghRec.url.drop 19)).headD []) :=
  ⟨c3_user_normalization_amended.1 c3gistLine c3gistRec (by decide) (by decide)
      (Or.inr (by decide)),
   c3_user_normalization_amended.2 c3ghLine c3ghRec (by decide) (by decide)⟩

/-! Claim C4: the shape of a parsed record's tags. -/

/-- The tags field of a built record comes from the tag block that follows
the modifier block. -/
theorem buildRecord_tags (n u r : Str) :
    (buildRecord n u r).tags = (parseTagsBlock (parseModsBlock r).2).1 := by
  simp only [buildRecord]
  repeat' split
  all_goals rfl

/-- The tag block parses to nothing or to the trimmed-and-filtered
comma-split of some delimited text. -/
theorem parseTagsBlock_cases (rem1 : Str) :
    (parseTagsBlock rem1).1 = none ∨
    ∃ x, (parseTagsBlock rem1).1 =
      some (((splitOnChar ',' x).map trimStr).filter (· ≠ [])) := by
  unfold parseTagsBlock
  cases rem1 with
  | nil => exact Or.inl rfl
  | cons c rr =>
    dsimp only
    by_cases hc : (c == backtickCh) = true
    · rw [if_pos hc]
      cases List.findIdx? (fun d => d == backtickCh) rr with
      | none => exact Or.inl rfl
      | some j => exact Or.inr ⟨rr.take j, rfl⟩
    · rw [if_neg hc]
      exact Or.inl rfl

/-- Claim C4 is false as stated: a line with an empty backtick block
parses to a present-but-empty tags collection (not `null`), and a line
with a duplicated tag keeps the duplicate (no deduplication). -/
theorem c4_tags_counterexample :
    (parseGistLink c4emptyLine).map LinkRecord.tags = some (some []) ∧
    (parseGistLink c4dupLine).map LinkRecord.tags =
      some (some [['a'], ['a']]) := by
  refine ⟨by decide, by decide⟩

/-- Amended claim C4: a parsed record's tags are either null or an
order-preserving collection of individually non-empty, trimmed strings;
the collection itself may be empty and may contain duplicates. -/
theorem c4_tags_amended :
    ∀ (line : Str) (rec : LinkRecord) (ts : List Str),
      parseGistLink line = some rec → rec.tags = some ts →
      ∀ t ∈ ts, t ≠ [] ∧ trimStr t = t := by
  intro line rec ts hp hts t ht
  obtain ⟨n, u, rr, rfl⟩ := parseGistLink_eq_buildRecord line rec hp
  rw [buildRecord_tags] at hts
  rcases parseTagsBlock_cases (parseModsBlock rr).2 with hcase | ⟨x, hcase⟩
  · rw [hcase] at hts
    exact Option.noConfusion hts
  · rw [hcase] at hts
    simp only [Option.some_inj] at hts
    subst hts
    have h1 := List.mem_filter.mp ht
    rcases List.mem_map.mp h1.1 with ⟨y, _, rfl⟩
    exact ⟨by simpa using h1.2, trimStr_idem y⟩

/-- Witness for the amended C4 theorem: the first tag of the well-formed
fixture is non-empty and trim-fixed. -/
theorem c4_tags_amended_witness :
    (r"db").data ≠ [] ∧ trimStr ((r"db").data) = (r"db").data :=
  c4_tags_amended c4line c4rec [(r"db").data, (r"lite").data] (by decide)
    (by decide) ((r"db").data) (by decide)

/-! Claim C8: the conditional patch step after writing a patch file. -/

/-- Claim C8: after writing a file whose path carries the JSON-patch
marker suffix, the patch is applied and the patch file deleted exactly
when the target file already exists; when the target is missing the step
is skipped entirely and the filesystem (hence the written patch file) is
left as is. -/
theorem c8_patch_after_write (fs : FileSys) (p : Str)
    (h : endsWithStr p patchSuffixL = true) :
    ((fsLookup fs (dropLastN p 6)).isSome = false →
      handlePatchSuffix fs p = .ok fs) ∧
    ((fsLookup fs (dropLastN p 6)).isSome = true →
      handlePatchSuffix fs p =
        (patchJsonFileF fs (dropLastN p 6) p).map (fun f2 => fsRemove f2 p) ∧
      ∀ fs2, handlePatchSuffix fs p = .ok fs2 → fsLookup fs2 p = none) := by
  constructor
  · intro hn
    unfold handlePatchSuffix
    rw [if_pos h, if_neg (by simp [hn])]
  · intro hs
    have he : handlePatchSuffix fs p =
        (patchJsonFileF fs (dropLastN p 6) p).map (fun f2 => fsRemove f2 p) := by
      unfold handlePatchSuffix
      rw [if_pos h, if_pos hs]
    refine ⟨he, ?_⟩
    intro fs2 h2
    rw [he] at h2
    rcases (except_map_eq_ok _ _ _).mp h2 with ⟨a, _, rfl⟩
    exact fsLookup_fsRemove_self a p

/-- Witness for C8: with the target missing the filesystem is unchanged;
with the target present the patch runs and the patch file is gone. -/
theorem c8_patch_after_write_witness :
    handlePatchSuffix c8fsMissing c8patchPath = .ok c8fsMissing ∧
    fsLookup c8fsAfter c8patchPath = none :=
  ⟨(c8_patch_after_write c8fsMissing c8patchPath (by decide)).1 (by decide),
   ((c8_patch_after_write c8fsPresent c8patchPath (by decide)).2 (by decide)).2
     c8fsAfter rfl⟩
